import Mathlib

/-!
Shallow embedding of `src/ethcore/src/migrations/v10.rs` (the parity v10
"account bloom" database migration) together with models of the
collaborators that the file consumes through narrow interfaces
(key-value store, batch accumulator, bloom filter, header decoder,
trie reader).  The claims of the specification are stated and settled
as theorems about these definitions.
-/

set_option maxHeartbeats 1000000

namespace ParityV10

/-- Byte strings are modelled as lists of naturals (one entry per byte). -/
abbrev Bytes := List Nat

/-- Column identifiers, `Option<u32>` in the Rust code. -/
abbrev Col := Option Nat

/-- Transactions are batches of (key, value) upserts against one column. -/
abbrev Tx := List (Bytes × Bytes)

/-- Modelled from the spec: the column constants of the repository's `db`
module (`COL_STATE`, `COL_HEADERS`, `COL_EXTRA`, `COL_ACCOUNT_BLOOM`),
which are not under `src/`.  Only their distinctness matters here; the
numeric values follow the repository's six-column layout. -/
def COL_STATE : Col := some 0

/-- Modelled from the spec: the headers column id. -/
def COL_HEADERS : Col := some 1

/-- Modelled from the spec: the auxiliary ("extra") column id, holding the
chain-head pointer. -/
def COL_EXTRA : Col := some 3

/-- Modelled from the spec: the account-bloom column id, the column the
bloom journal is committed into. -/
def COL_ACCOUNT_BLOOM : Col := some 5

/-- First value stored under a key in an association list, mirroring a
key-value store column lookup. -/
def assocGet : List (Bytes × Bytes) → Bytes → Option Bytes
  | [], _ => none
  | (k', v) :: rest, k => if k' = k then some v else assocGet rest k

/-- Overwrite-or-insert of one (key, value) pair into a column's contents,
mirroring one upsert of a store transaction. -/
def upsert (l : List (Bytes × Bytes)) (k v : Bytes) : List (Bytes × Bytes) :=
  (l.filter (fun p => decide (p.1 ≠ k))) ++ [(k, v)]

/-- Apply every upsert of a transaction, in order, to a column's contents. -/
def writeEntries (l : List (Bytes × Bytes)) (tx : Tx) : List (Bytes × Bytes) :=
  tx.foldl (fun acc p => upsert acc p.1 p.2) l

/-- Modelled from the spec: the store collaborator (§6) — a set of columns,
each an association of byte keys to byte values. -/
structure Store where
  cols : Col → List (Bytes × Bytes)

/-- Store read: `Database::get(col, key)` (the model treats reads as
infallible; store I/O errors are outside the claims). -/
def Store.get (s : Store) (c : Col) (k : Bytes) : Option Bytes :=
  assocGet (s.cols c) k

/-- Store iteration: `Database::iter(col)` yields the column's pairs in
storage order. -/
def Store.iter (s : Store) (c : Col) : List (Bytes × Bytes) :=
  s.cols c

/-- Store write: `Database::write(transaction)` applies a batch of upserts
to one column atomically. -/
def Store.write (s : Store) (c : Col) (tx : Tx) : Store :=
  ⟨fun c' => if c' = c then writeEntries (s.cols c) tx else s.cols c'⟩

/-- The two variants of `util::migration::Error` that `v10.rs` produces:
`Error::MigrationImpossible` and `Error::Custom(msg)`. -/
inductive MigError where
  | migrationImpossible
  | custom (msg : String)
  deriving DecidableEq, Repr

/-- Result of running a migration routine.  `err` and `panic` carry the
destination store as it stands at the moment of failure: in the Rust code
`dest` is a mutable reference, so writes performed before a failure
persist, and "no write happened" is expressed by the carried store being
the input one. -/
inductive Outcome where
  | ok (dest : Store)
  | err (e : MigError) (dest : Store)
  | panic (dest : Store)

/-- Modelled from the spec: the bloom configuration constant
`ACCOUNT_BLOOM_SPACE` of `state_db` (fixed bit-space size, not under
`src/`). -/
def ACCOUNT_BLOOM_SPACE : Nat := 1048576

/-- Modelled from the spec: the bloom configuration constant
`DEFAULT_ACCOUNT_PRESET` of `state_db` (expected element count preset,
not under `src/`). -/
def DEFAULT_ACCOUNT_PRESET : Nat := 1000000

/-- Modelled from the spec: first of the fixed, deterministic hash-derived
bit positions of the BloomIndex (§4.3).  Any fixed deterministic scheme
realises the spec; this one folds the key bytes. -/
def bloomHash1 (key : Bytes) : Nat :=
  key.foldl (fun a b => (a * 131 + b) % ACCOUNT_BLOOM_SPACE) 7

/-- Modelled from the spec: second fixed hash-derived bit position. -/
def bloomHash2 (key : Bytes) : Nat :=
  key.foldl (fun a b => (a * 257 + b) % ACCOUNT_BLOOM_SPACE) 11

/-- Modelled from the spec: the fixed set of bit positions derived from a
key by the BloomIndex, independent of insertion order (§4.3). -/
def bloomPositions (space : Nat) (key : Bytes) : List Nat :=
  [bloomHash1 key % space, bloomHash2 key % space]

/-- Modelled from the spec: the BloomIndex (§4.3) of the repository's
`bloom_journal` crate (not under `src/`): a fixed bit-space with the set
bits recorded as a finite set of positions.  The filter here is always
freshly constructed before use, so the dirty-segment tracking coincides
with the nonzero segments of `bits`. -/
structure Bloom where
  space : Nat
  bits : Finset Nat
  deriving DecidableEq

/-- Modelled from the spec: `Bloom::new(space, preset)` creates an all-zero
filter; the preset fixes tuning only and does not affect which bits a key
maps to in this model. -/
def Bloom.new (space : Nat) (_preset : Nat) : Bloom :=
  ⟨space, ∅⟩

/-- Modelled from the spec: `Bloom::set(key)` marks the key's derived bit
positions; idempotent because `bits` is a set. -/
def Bloom.set (b : Bloom) (key : Bytes) : Bloom :=
  ⟨b.space, b.bits ∪ (bloomPositions b.space key).toFinset⟩

/-- Modelled from the spec: membership test of the bloom filter — a key is
a possible member when all of its derived bit positions are set. -/
def Bloom.check (b : Bloom) (key : Bytes) : Bool :=
  (bloomPositions b.space key).all (fun p => decide (p ∈ b.bits))

/-- Bits of one 64-bit journal segment, rendered as 8 bytes. -/
def Bloom.segmentBits (b : Bloom) (i : Nat) : Bytes :=
  (List.range 8).map (fun byteIdx =>
    (List.range 8).foldl
      (fun acc bitIdx =>
        acc + (if 64 * i + 8 * byteIdx + bitIdx ∈ b.bits then 2 ^ bitIdx else 0))
      0)

/-- Modelled from the spec: `Bloom::drain_journal()` returns the dirty
(here: nonzero) 64-bit segments as (segment index, segment bits) pairs,
in increasing segment order. -/
def Bloom.drain_journal (b : Bloom) : List (Nat × Bytes) :=
  ((b.bits.image (fun p => p / 64)).sort (· ≤ ·)).map (fun i => (i, b.segmentBits i))

/-- Fixed-width little-endian encoding of a segment index as a byte key. -/
def natToBytes8 (n : Nat) : Bytes :=
  (List.range 8).map (fun i => n / 256 ^ i % 256)

/-- Modelled from the spec: `StateDB::commit_bloom(batch, journal)` plus the
`dest.write(batch)` that follows it — all journaled segments are written
into the account-bloom column as one transaction (§4.4 step 6). -/
def commitBloom (dest : Store) (journal : List (Nat × Bytes)) : Store :=
  dest.write COL_ACCOUNT_BLOOM (journal.map (fun p => (natToBytes8 p.1, p.2)))

/-- One item of the lazy trie traversal: a leaf (key, value) pair, or a
corrupt-node error (whose payload the Rust code discards). -/
abbrev TrieItem := Except Unit (Bytes × Bytes)

/-- Modelled from the spec: result of opening and iterating the account
trie (§6): the open itself can fail (missing root node), constructing the
iterator can fail, or a finite list of lazily produced items results. -/
inductive TrieResult where
  | openFail
  | iterFail
  | items (items : List TrieItem)

/-- Modelled from the spec: the external collaborators consumed by
`generate_bloom` — the header decoder (`HeaderView::state_root`, yielding
the state-root field of a header) and the trie reader
(`TrieDB::new` + `.iter()` over the node store built from the state
column; the journaldb overlay is read-only and algorithm-independent, so
the node store is modelled as the state column's contents). -/
structure Collab where
  state_root : Bytes → Bytes
  trie : List (Bytes × Bytes) → Bytes → TrieResult

/-- `H256::from_slice` succeeds exactly on 32-byte inputs; on any other
length the Rust function panics, modelled here by `none`. -/
def H256.from_slice (b : Bytes) : Option Bytes :=
  if b.length = 32 then some b else none

/-- Result of the account-trie loop of `generate_bloom` (lines 62–66):
either the populated bloom, a corrupt-item abort (`MigrationImpossible`),
or a panic caused by a non-32-byte leaf key. -/
inductive LoopResult where
  | done (b : Bloom)
  | corrupt
  | panicked

/-- The `for item in account_trie.iter()` loop of `generate_bloom`:
each ok item's key is converted by `H256::from_slice` and fed to
`Bloom::set`; a corrupt item aborts the loop. -/
def bloomLoop : List TrieItem → Bloom → LoopResult
  | [], b => .done b
  | .error _ :: _, _ => .corrupt
  | .ok (k, _) :: rest, b =>
    match H256.from_slice k with
    | none => .panicked
    | some kh => bloomLoop rest (b.set kh)

/-- The key `b"best"` (ASCII) under which the chain head is stored. -/
def bestKey : Bytes := [98, 101, 115, 116]

/-- Embedding of `generate_bloom` (lines 33–81 of `v10.rs`): look up the
chain head in the extra column, the header in the headers column, extract
the state root, open and traverse the account trie over the state column,
populate a fresh bloom, and commit its drained journal to the destination.
The `Custom` message models `format!("Cannot open trie: {:?}", e)` with
the collaborator's error detail elided. -/
def generate_bloom (c : Collab) (source : Store) (dest : Store) : Outcome :=
  match source.get COL_EXTRA bestKey with
  | none => .ok dest
  | some best_block_hash =>
    match source.get COL_HEADERS best_block_hash with
    | none => .ok dest
    | some best_block_header =>
      let state_root := c.state_root best_block_header
      match c.trie (source.iter COL_STATE) state_root with
      | .openFail => .err (.custom "Cannot open trie") dest
      | .iterFail => .err .migrationImpossible dest
      | .items items =>
        match bloomLoop items (Bloom.new ACCOUNT_BLOOM_SPACE DEFAULT_ACCOUNT_PRESET) with
        | .corrupt => .err .migrationImpossible dest
        | .panicked => .panic dest
        | .done bloom => .ok (commitBloom dest bloom.drain_journal)

/-- Projection of the control flow of `generate_bloom` up to the trie
traversal: the item list the traversal yields, when the chain head and
header are present and the trie opens and iterates. -/
def trieItemsOf (c : Collab) (source : Store) : Option (List TrieItem) :=
  match source.get COL_EXTRA bestKey with
  | none => none
  | some best_block_hash =>
    match source.get COL_HEADERS best_block_hash with
    | none => none
    | some best_block_header =>
      match c.trie (source.iter COL_STATE) (c.state_root best_block_header) with
      | .openFail => none
      | .iterFail => none
      | .items items => some items

/-- Modelled from the spec: `util::migration::Config` (§4.1) — the
configured flush threshold of the batch accumulator. -/
structure Config where
  batch_size : Nat

/-- Modelled from the spec: the BatchAccumulator (§4.1) of
`util::migration::Batch` (not under `src/`): a buffer of pending inserts
bound to one column and a flush threshold. -/
structure Batch where
  inner : List (Bytes × Bytes)
  batch_size : Nat
  column : Col

/-- Modelled from the spec: `Batch::new(config, column)` starts with an
empty buffer. -/
def Batch.new (config : Config) (col : Col) : Batch :=
  ⟨[], config.batch_size, col⟩

/-- Modelled from the spec: `Batch::insert(key, value, dest)` appends one
entry; when the buffer reaches the threshold it is written to the
destination as a single transaction and cleared.  The returned list
records the write transactions issued by this call. -/
def Batch.insert (b : Batch) (k v : Bytes) (dest : Store) : Batch × Store × List Tx :=
  let buf := b.inner ++ [(k, v)]
  if buf.length = b.batch_size then
    (⟨[], b.batch_size, b.column⟩, dest.write b.column buf, [buf])
  else
    (⟨buf, b.batch_size, b.column⟩, dest, [])

/-- Modelled from the spec: `Batch::commit(dest)` flushes the remaining
buffered entries; flushing an empty buffer is a no-op on the destination
and issues no write transaction. -/
def Batch.commit (b : Batch) (dest : Store) : Batch × Store × List Tx :=
  if b.inner = [] then (b, dest, [])
  else (⟨[], b.batch_size, b.column⟩, dest.write b.column b.inner, [b.inner])

/-- The `for (key, value) in source.iter(col)` loop of `ToV10::migrate`
(lines 105–108): insert every pair through the batch accumulator,
accumulating a record of issued write transactions. -/
def copyLoop : List (Bytes × Bytes) → Batch → Store → List Tx → Batch × Store × List Tx
  | [], b, d, txs => (b, d, txs)
  | (k, v) :: rest, b, d, txs =>
    let r := b.insert k v d
    copyLoop rest r.1 r.2.1 (txs ++ r.2.2)

/-- The column-copy part of `ToV10::migrate` (lines 104–109): run the loop
from a fresh batch, then commit the remainder.  Returns the resulting
destination and the record of issued write transactions. -/
def copyColumn (config : Config) (source : Store) (dest : Store) (col : Col) : Store × List Tx :=
  let r := copyLoop (source.iter col) (Batch.new config col) dest []
  let rc := r.1.commit r.2.1
  (rc.2.1, r.2.2 ++ rc.2.2)

/-- Apply a sequence of write transactions against one column, in order;
the store a run of the batch accumulator produces is `applyTxs` of the
transactions it issued. -/
def applyTxs (d : Store) (col : Col) (ts : List Tx) : Store :=
  ts.foldl (fun s t => s.write col t) d

/-- Embedding of `ToV10::migrate` (lines 103–116): copy the column through
the batch accumulator, then, exactly when the migrated column is the state
column, run `generate_bloom` against the committed destination, its
failure failing the whole call.  (`Progress::tick` is trace-only and
elided.) -/
def ToV10.migrate (c : Collab) (config : Config) (source : Store) (dest : Store) (col : Col) : Outcome :=
  let d := (copyColumn config source dest col).1
  if col = COL_STATE then generate_bloom c source d else .ok d

/-- Keys that the ok items of a traversal contribute, in order. -/
def okKeys : List TrieItem → List Bytes
  | [] => []
  | .ok (k, _) :: rest => k :: okKeys rest
  | .error _ :: rest => okKeys rest

/-- Concatenated bloom positions of a list of keys. -/
def positionsOf (space : Nat) : List Bytes → List Nat
  | [] => []
  | k :: rest => bloomPositions space k ++ positionsOf space rest

/-- Item predicate: an ok leaf whose key has exactly 32 bytes. -/
def okKey32 : TrieItem → Bool
  | .ok (k, _) => k.length == 32
  | .error _ => false

/-- Item predicate: either a corrupt item or a leaf with a 32-byte key
(the implicit precondition under which `H256::from_slice` cannot panic). -/
def keyLen32 : TrieItem → Bool
  | .ok (k, _) => k.length == 32
  | .error _ => true

/-- Concrete 32-byte account key (all zero bytes), used by witnesses. -/
def wKeyA : Bytes := List.replicate 32 0

/-- Concrete 32-byte account key (all one bytes), used by witnesses. -/
def wKeyB : Bytes := List.replicate 32 1

/-- Concrete chain-head hash value, used by witnesses. -/
def wHash : Bytes := [170]

/-- Concrete header bytes, used by witnesses. -/
def wHdr : Bytes := [7]

/-- Concrete state root, used by witnesses. -/
def wRoot : Bytes := [3]

/-- Concrete header decoder for witnesses: every header maps to `wRoot`. -/
def wStateRoot : Bytes → Bytes := fun _ => wRoot

/-- A store with every column empty. -/
def emptyStore : Store := ⟨fun _ => []⟩

/-- A store holding a chain head and the matching header. -/
def srcHead : Store :=
  ⟨fun c =>
    if c = COL_EXTRA then [(bestKey, wHash)]
    else if c = COL_HEADERS then [(wHash, wHdr)]
    else []⟩

/-- A store holding a chain head whose header is missing. -/
def srcHeadOnly : Store :=
  ⟨fun c => if c = COL_EXTRA then [(bestKey, wHash)] else []⟩

/-- Collaborator whose trie is empty, for no-op witnesses. -/
def cNoTrie : Collab := ⟨wStateRoot, fun _ _ => .items []⟩

/-- Collaborator whose trie fails to open. -/
def cOpenFail : Collab := ⟨wStateRoot, fun _ _ => .openFail⟩

/-- Collaborator whose trie yields one good leaf and then a corrupt item. -/
def cCorrupt : Collab := ⟨wStateRoot, fun _ _ => .items [.ok (wKeyA, []), .error ()]⟩

/-- Collaborator whose trie yields a single 32-byte-keyed leaf. -/
def cOneLeaf : Collab := ⟨wStateRoot, fun _ _ => .items [.ok (wKeyA, [])]⟩

/-- Collaborator whose trie yields a leaf with a short (2-byte) key. -/
def cShortKey : Collab := ⟨wStateRoot, fun _ _ => .items [.ok ([5, 6], [])]⟩

/-- Collaborator whose trie yields two leaves in one order. -/
def cTwoLeaves : Collab :=
  ⟨wStateRoot, fun _ _ => .items [.ok (wKeyA, []), .ok (wKeyB, [])]⟩

/-- Collaborator whose trie yields the same two leaves in swapped order. -/
def cTwoLeavesRev : Collab :=
  ⟨wStateRoot, fun _ _ => .items [.ok (wKeyB, []), .ok (wKeyA, [])]⟩

/-- Concrete accumulator configuration with flush threshold 2. -/
def wConfig : Config := ⟨2⟩

/-- A source store with five entries in column 2 and nothing elsewhere. -/
def srcCopy : Store :=
  ⟨fun c =>
    if c = some 2 then [([1], [9]), ([2], [8]), ([3], [7]), ([4], [6]), ([5], [5])]
    else []⟩

/-- Helper: inverting a successful `trieItemsOf` recovers the chain head,
the header, and the traversal's item list. -/
theorem trieItemsOf_some {c : Collab} {source : Store} {items : List TrieItem}
    (h : trieItemsOf c source = some items) :
    ∃ hash hdr, source.get COL_EXTRA bestKey = some hash ∧
      source.get COL_HEADERS hash = some hdr ∧
      c.trie (source.iter COL_STATE) (c.state_root hdr) = .items items := by
  unfold trieItemsOf at h
  cases hb : source.get COL_EXTRA bestKey with
  | none => simp only [hb] at h; exact Option.noConfusion h
  | some hash =>
    simp only [hb] at h
    cases hh : source.get COL_HEADERS hash with
    | none => simp only [hh] at h; exact Option.noConfusion h
    | some hdr =>
      simp only [hh] at h
      cases ht : c.trie (source.iter COL_STATE) (c.state_root hdr) with
      | openFail => simp only [ht] at h; exact Option.noConfusion h
      | iterFail => simp only [ht] at h; exact Option.noConfusion h
      | items its =>
        simp only [ht, Option.some.injEq] at h
        exact ⟨hash, hdr, rfl, hh, by rw [ht, h]⟩

/-- Helper: with head, header and an iterable trie present, `generate_bloom`
reduces to the result of the account-trie loop. -/
theorem generate_bloom_items {c : Collab} {source dest : Store} {hash hdr : Bytes}
    {items : List TrieItem}
    (h1 : source.get COL_EXTRA bestKey = some hash)
    (h2 : source.get COL_HEADERS hash = some hdr)
    (h3 : c.trie (source.iter COL_STATE) (c.state_root hdr) = .items items) :
    generate_bloom c source dest =
      match bloomLoop items (Bloom.new ACCOUNT_BLOOM_SPACE DEFAULT_ACCOUNT_PRESET) with
      | .corrupt => .err .migrationImpossible dest
      | .panicked => .panic dest
      | .done bloom => .ok (commitBloom dest bloom.drain_journal) := by
  unfold generate_bloom
  simp only [h1, h2, h3]

/-- Helper: the loop aborts with the corrupt marker as soon as it reaches an
error item, provided every earlier item is a well-formed 32-byte-keyed
leaf. -/
theorem bloomLoop_corrupt_reached (pre rest : List TrieItem) (e : Unit) (b : Bloom)
    (h : pre.all okKey32 = true) :
    bloomLoop (pre ++ .error e :: rest) b = .corrupt := by
  induction pre generalizing b with
  | nil => rfl
  | cons it pre ih =>
    cases it with
    | error u => simp [okKey32] at h
    | ok kv =>
      obtain ⟨k, v⟩ := kv
      rw [List.all_cons, Bool.and_eq_true] at h
      obtain ⟨hk, hall⟩ := h
      have hk' : k.length = 32 := by simpa [okKey32] using hk
      have hs : H256.from_slice k = some k := by simp [H256.from_slice, hk']
      show bloomLoop (.ok (k, v) :: (pre ++ .error e :: rest)) b = .corrupt
      simp only [bloomLoop, hs]
      exact ih _ hall

/-- C2: Empty-store no-op — if the auxiliary column holds no value under
the chain-head key `b"best"`, `generate_bloom` succeeds and performs no
write to the destination (the returned destination is the input one). -/
theorem empty_store_noop (c : Collab) (source dest : Store)
    (h : source.get COL_EXTRA bestKey = none) :
    generate_bloom c source dest = .ok dest := by
  unfold generate_bloom
  simp only [h]

/-- Witness for C2 at a concrete empty source store. -/
theorem empty_store_noop_witness :
    Store.get emptyStore COL_EXTRA bestKey = none ∧
      generate_bloom cNoTrie emptyStore emptyStore = .ok emptyStore :=
  ⟨rfl, empty_store_noop cNoTrie emptyStore emptyStore rfl⟩

/-- C3: Missing-header no-op — if the chain-head key holds a hash whose
header is absent from the headers column, `generate_bloom` succeeds and
writes nothing to the destination. -/
theorem missing_header_noop (c : Collab) (source dest : Store) (hash : Bytes)
    (h1 : source.get COL_EXTRA bestKey = some hash)
    (h2 : source.get COL_HEADERS hash = none) :
    generate_bloom c source dest = .ok dest := by
  unfold generate_bloom
  simp only [h1, h2]

/-- Witness for C3 at a concrete head-only source store. -/
theorem missing_header_noop_witness :
    Store.get srcHeadOnly COL_EXTRA bestKey = some wHash ∧
      Store.get srcHeadOnly COL_HEADERS wHash = none ∧
      generate_bloom cNoTrie srcHeadOnly emptyStore = .ok emptyStore :=
  ⟨rfl, rfl, missing_header_noop cNoTrie srcHeadOnly emptyStore wHash rfl rfl⟩

/-- C4 counterexample: with head and header present but the trie failing to
open, `generate_bloom` returns the contextual `Custom("Cannot open trie")`
error, which is not the `MigrationImpossible` variant, so the error does
not belong to the "migration impossible" category as the claim states. -/
theorem trie_open_failure_cex :
    generate_bloom cOpenFail srcHead emptyStore =
        .err (.custom "Cannot open trie") emptyStore ∧
      MigError.custom "Cannot open trie" ≠ MigError.migrationImpossible :=
  ⟨rfl, by decide⟩

/-- C4 amended: whenever the head and header are both present but the
account trie at the extracted state root cannot be opened,
`generate_bloom` fails with the contextual `Error::Custom("Cannot open
trie: …")` error (a structural, non-retriable failure, but not the
`MigrationImpossible` variant), and performs no write to the
destination. -/
theorem trie_open_failure_custom (c : Collab) (source dest : Store) (hash hdr : Bytes)
    (h1 : source.get COL_EXTRA bestKey = some hash)
    (h2 : source.get COL_HEADERS hash = some hdr)
    (h3 : c.trie (source.iter COL_STATE) (c.state_root hdr) = .openFail) :
    generate_bloom c source dest = .err (.custom "Cannot open trie") dest := by
  unfold generate_bloom
  simp only [h1, h2, h3]

/-- Witness for the amended C4 at a concrete store whose trie cannot be
opened. -/
theorem trie_open_failure_custom_witness :
    generate_bloom cOpenFail srcHead srcHead = .err (.custom "Cannot open trie") srcHead :=
  trie_open_failure_custom cOpenFail srcHead srcHead wHash wHdr rfl rfl rfl

/-- C5: Traversal-failure atomicity — if the lazy trie traversal reaches a
corrupt item (every earlier item being a well-formed leaf),
`generate_bloom` returns `Error::MigrationImpossible` and performs no
write of any partial bloom journal: the destination it carries is exactly
the input destination. -/
theorem traversal_failure_atomic (c : Collab) (source dest : Store) (hash hdr : Bytes)
    (pre rest : List TrieItem) (e : Unit)
    (h1 : source.get COL_EXTRA bestKey = some hash)
    (h2 : source.get COL_HEADERS hash = some hdr)
    (h3 : c.trie (source.iter COL_STATE) (c.state_root hdr) = .items (pre ++ .error e :: rest))
    (hpre : pre.all okKey32 = true) :
    generate_bloom c source dest = .err .migrationImpossible dest := by
  rw [generate_bloom_items h1 h2 h3, bloomLoop_corrupt_reached pre rest e _ hpre]

/-- Witness for C5 at a concrete store whose traversal yields one good leaf
and then a corrupt item. -/
theorem traversal_failure_atomic_witness :
    generate_bloom cCorrupt srcHead emptyStore = .err .migrationImpossible emptyStore :=
  traversal_failure_atomic cCorrupt srcHead emptyStore wHash wHdr
    [.ok (wKeyA, [])] [] () rfl rfl rfl (by decide)

/-- Helper: a successful run of the account-trie loop keeps the bit space
and sets exactly the base bits plus the positions of every ok key. -/
theorem bloomLoop_done_bits (items : List TrieItem) : ∀ (b b' : Bloom),
    bloomLoop items b = .done b' →
    b'.space = b.space ∧
      b'.bits = b.bits ∪ (positionsOf b.space (okKeys items)).toFinset := by
  induction items with
  | nil =>
    intro b b' h
    cases h
    simp [okKeys, positionsOf]
  | cons it rest ih =>
    intro b b' h
    cases it with
    | error u => exact LoopResult.noConfusion h
    | ok kv =>
      obtain ⟨k, v⟩ := kv
      simp only [bloomLoop] at h
      cases hs : H256.from_slice k with
      | none => rw [hs] at h; exact LoopResult.noConfusion h
      | some kh =>
        rw [hs] at h
        have hkh : kh = k := by
          unfold H256.from_slice at hs
          by_cases hl : k.length = 32
          · rw [if_pos hl] at hs; exact (Option.some.inj hs).symm
          · rw [if_neg hl] at hs; exact Option.noConfusion hs
        subst hkh
        obtain ⟨hsp, hbits⟩ := ih _ _ h
        refine ⟨hsp, ?_⟩
        rw [hbits]
        simp [Bloom.set, okKeys, positionsOf, List.toFinset_append, Finset.union_assoc]

/-- Helper: the key of every ok traversal item appears among the ok keys. -/
theorem mem_okKeys {items : List TrieItem} {k v : Bytes}
    (h : Except.ok (k, v) ∈ items) : k ∈ okKeys items := by
  induction items with
  | nil => cases h
  | cons it rest ih =>
    cases h with
    | head => exact List.mem_cons_self _ _
    | tail _ h' =>
      cases it with
      | ok kv =>
        obtain ⟨a, b⟩ := kv
        exact List.mem_cons_of_mem _ (ih h')
      | error u => exact ih h'

/-- Helper: positions of a listed key occur in the concatenated position
list. -/
theorem mem_positionsOf {space : Nat} {keys : List Bytes} {k : Bytes} (h : k ∈ keys) :
    ∀ p ∈ bloomPositions space k, p ∈ positionsOf space keys := by
  induction keys with
  | nil => cases h
  | cons k' rest ih =>
    intro p hp
    show p ∈ bloomPositions space k' ++ positionsOf space rest
    rw [List.mem_append]
    cases h with
    | head => exact Or.inl hp
    | tail _ h' => exact Or.inr (ih h' p hp)

/-- Helper: after a successful loop, every ok key of the traversal passes
the bloom membership check (no false negatives). -/
theorem bloomLoop_done_check {items : List TrieItem} {b b' : Bloom}
    (h : bloomLoop items b = .done b') {k v : Bytes}
    (hk : Except.ok (k, v) ∈ items) :
    b'.check k = true := by
  obtain ⟨hsp, hbits⟩ := bloomLoop_done_bits items b b' h
  unfold Bloom.check
  rw [hsp, hbits, List.all_eq_true]
  intro p hp
  simp only [decide_eq_true_eq]
  exact Finset.mem_union_right _
    (List.mem_toFinset.mpr (mem_positionsOf (mem_okKeys hk) p hp))

/-- Helper: a permutation of traversal items permutes the ok keys. -/
theorem okKeys_perm {l₁ l₂ : List TrieItem} (p : l₁.Perm l₂) :
    (okKeys l₁).Perm (okKeys l₂) := by
  induction p with
  | nil => exact List.Perm.refl _
  | cons x _ ih =>
    cases x with
    | ok kv =>
      obtain ⟨k, v⟩ := kv
      exact ih.cons k
    | error u => exact ih
  | swap x y l =>
    cases x with
    | ok kvx =>
      obtain ⟨kx, vx⟩ := kvx
      cases y with
      | ok kvy =>
        obtain ⟨ky, vy⟩ := kvy
        exact List.Perm.swap kx ky _
      | error u => exact List.Perm.refl _
    | error u =>
      cases y with
      | ok kvy =>
        obtain ⟨ky, vy⟩ := kvy
        exact List.Perm.refl _
      | error u2 => exact List.Perm.refl _
  | trans _ _ ih₁ ih₂ => exact ih₁.trans ih₂

/-- Helper: the set of concatenated positions is invariant under
permutation of the key list. -/
theorem positionsOf_toFinset_perm (space : Nat) {l₁ l₂ : List Bytes} (p : l₁.Perm l₂) :
    (positionsOf space l₁).toFinset = (positionsOf space l₂).toFinset := by
  induction p with
  | nil => rfl
  | cons x _ ih =>
    show (bloomPositions space x ++ _).toFinset = (bloomPositions space x ++ _).toFinset
    rw [List.toFinset_append, List.toFinset_append, ih]
  | swap x y l =>
    show (bloomPositions space y ++ (bloomPositions space x ++ positionsOf space l)).toFinset
        = (bloomPositions space x ++ (bloomPositions space y ++ positionsOf space l)).toFinset
    simp only [List.toFinset_append]
    rw [← Finset.union_assoc, ← Finset.union_assoc,
      Finset.union_comm (bloomPositions space y).toFinset (bloomPositions space x).toFinset]
  | trans _ _ ih₁ ih₂ => exact ih₁.trans ih₂

/-- C6: Membership completeness — when `generate_bloom` succeeds, the bloom
filter whose journal it commits reports every account key that occurs as a
leaf of the traversed trie as a possible member (no false negatives). -/
theorem membership_completeness (c : Collab) (source dest : Store)
    (items : List TrieItem) (b : Bloom)
    (hitems : trieItemsOf c source = some items)
    (hloop : bloomLoop items (Bloom.new ACCOUNT_BLOOM_SPACE DEFAULT_ACCOUNT_PRESET) = .done b) :
    generate_bloom c source dest = .ok (commitBloom dest b.drain_journal) ∧
      ∀ k v, Except.ok (k, v) ∈ items → b.check k = true := by
  obtain ⟨hash, hdr, hb, hh, ht⟩ := trieItemsOf_some hitems
  constructor
  · rw [generate_bloom_items hb hh ht]
    simp only [hloop]
  · intro k v hk
    exact bloomLoop_done_check hloop hk

/-- Witness for C6 at a concrete one-leaf trie. -/
theorem membership_completeness_witness :
    trieItemsOf cOneLeaf srcHead = some [Except.ok (wKeyA, [])] ∧
      ((Bloom.new ACCOUNT_BLOOM_SPACE DEFAULT_ACCOUNT_PRESET).set wKeyA).check wKeyA = true :=
  ⟨rfl,
    (membership_completeness cOneLeaf srcHead emptyStore [Except.ok (wKeyA, [])]
        ((Bloom.new ACCOUNT_BLOOM_SPACE DEFAULT_ACCOUNT_PRESET).set wKeyA) rfl rfl).2
      wKeyA [] (List.mem_singleton.mpr rfl)⟩

/-- C7: Order-invariant, idempotent rebuild — two runs of `generate_bloom`
over the same source whose trie traversals yield the same leaves (up to
order, in particular the identical traversal twice) that both succeed
commit bit-identical journaled segments, i.e. produce equal
destinations. -/
theorem order_invariant_rebuild (c₁ c₂ : Collab) (source dest : Store)
    (items₁ items₂ : List TrieItem) (d₁ d₂ : Store)
    (hi₁ : trieItemsOf c₁ source = some items₁)
    (hi₂ : trieItemsOf c₂ source = some items₂)
    (hperm : items₁.Perm items₂)
    (h₁ : generate_bloom c₁ source dest = .ok d₁)
    (h₂ : generate_bloom c₂ source dest = .ok d₂) :
    d₁ = d₂ := by
  obtain ⟨hash₁, hdr₁, hb₁, hh₁, ht₁⟩ := trieItemsOf_some hi₁
  obtain ⟨hash₂, hdr₂, hb₂, hh₂, ht₂⟩ := trieItemsOf_some hi₂
  rw [generate_bloom_items hb₁ hh₁ ht₁] at h₁
  rw [generate_bloom_items hb₂ hh₂ ht₂] at h₂
  cases hl₁ : bloomLoop items₁ (Bloom.new ACCOUNT_BLOOM_SPACE DEFAULT_ACCOUNT_PRESET) with
  | corrupt => simp only [hl₁] at h₁; exact Outcome.noConfusion h₁
  | panicked => simp only [hl₁] at h₁; exact Outcome.noConfusion h₁
  | done b₁ =>
    simp only [hl₁] at h₁
    cases hl₂ : bloomLoop items₂ (Bloom.new ACCOUNT_BLOOM_SPACE DEFAULT_ACCOUNT_PRESET) with
    | corrupt => simp only [hl₂] at h₂; exact Outcome.noConfusion h₂
    | panicked => simp only [hl₂] at h₂; exact Outcome.noConfusion h₂
    | done b₂ =>
      simp only [hl₂] at h₂
      obtain ⟨hsp₁, hbits₁⟩ := bloomLoop_done_bits _ _ _ hl₁
      obtain ⟨hsp₂, hbits₂⟩ := bloomLoop_done_bits _ _ _ hl₂
      have hsp : b₁.space = b₂.space := by rw [hsp₁, hsp₂]
      have hbits : b₁.bits = b₂.bits := by
        rw [hbits₁, hbits₂]
        exact congrArg
          (fun s => (Bloom.new ACCOUNT_BLOOM_SPACE DEFAULT_ACCOUNT_PRESET).bits ∪ s)
          (positionsOf_toFinset_perm _ (okKeys_perm hperm))
      have hbe : b₁ = b₂ := by
        cases b₁
        cases b₂
        simp only at hsp hbits
        rw [hsp, hbits]
      injection h₁ with e₁
      injection h₂ with e₂
      rw [← e₁, ← e₂, hbe]

/-- Witness for C7: two concrete runs over the same source whose traversals
yield the same two leaves in swapped order produce the same committed
destination. -/
theorem order_invariant_rebuild_witness :
    commitBloom emptyStore
        (Bloom.drain_journal
          (((Bloom.new ACCOUNT_BLOOM_SPACE DEFAULT_ACCOUNT_PRESET).set wKeyA).set wKeyB))
      = commitBloom emptyStore
        (Bloom.drain_journal
          (((Bloom.new ACCOUNT_BLOOM_SPACE DEFAULT_ACCOUNT_PRESET).set wKeyB).set wKeyA)) :=
  order_invariant_rebuild cTwoLeaves cTwoLeavesRev srcHead emptyStore
    [Except.ok (wKeyA, []), Except.ok (wKeyB, [])]
    [Except.ok (wKeyB, []), Except.ok (wKeyA, [])] _ _
    rfl rfl (List.Perm.swap _ _ _) rfl rfl

/-- Helper: when every item is a well-formed leaf or corrupt marker with
32-byte keys, the loop never reaches the panicking conversion. -/
theorem bloomLoop_no_panic (items : List TrieItem) :
    ∀ b : Bloom, items.all keyLen32 = true → bloomLoop items b ≠ .panicked := by
  induction items with
  | nil => intro b _ hc; exact LoopResult.noConfusion hc
  | cons it rest ih =>
    intro b hall hc
    cases it with
    | error u => exact LoopResult.noConfusion hc
    | ok kv =>
      obtain ⟨k, v⟩ := kv
      rw [List.all_cons, Bool.and_eq_true] at hall
      obtain ⟨hk, hall'⟩ := hall
      have hk' : k.length = 32 := by simpa [keyLen32] using hk
      have hs : H256.from_slice k = some k := by simp [H256.from_slice, hk']
      rw [show bloomLoop (.ok (k, v) :: rest) b = bloomLoop rest (b.set k) from by
        simp [bloomLoop, hs]] at hc
      exact ih _ hall' hc

/-- Helper: the loop panics at the first leaf whose key is not 32 bytes,
provided all earlier items are well-formed leaves. -/
theorem bloomLoop_panicked_reached (pre rest : List TrieItem) (k v : Bytes) (b : Bloom)
    (hpre : pre.all okKey32 = true) (hk : k.length ≠ 32) :
    bloomLoop (pre ++ .ok (k, v) :: rest) b = .panicked := by
  induction pre generalizing b with
  | nil =>
    have hs : H256.from_slice k = none := by simp [H256.from_slice, hk]
    show bloomLoop (.ok (k, v) :: rest) b = .panicked
    simp [bloomLoop, hs]
  | cons it pre ih =>
    cases it with
    | error u => simp [okKey32] at hpre
    | ok kv' =>
      obtain ⟨k', v'⟩ := kv'
      rw [List.all_cons, Bool.and_eq_true] at hpre
      obtain ⟨hk1, hall⟩ := hpre
      have hk1' : k'.length = 32 := by simpa [okKey32] using hk1
      have hs : H256.from_slice k' = some k' := by simp [H256.from_slice, hk1']
      show bloomLoop (.ok (k', v') :: (pre ++ .ok (k, v) :: rest)) b = .panicked
      simp only [bloomLoop, hs]
      exact ih _ hall

/-- C10: Implicit 32-byte key precondition — `H256::from_slice` panics on
any leaf key that is not exactly 32 bytes (modelled by the `panic`
outcome), and under the precondition that every traversal leaf key is
32 bytes long this failure branch of `generate_bloom` is unreachable. -/
theorem implicit_key_length_precondition (c : Collab) (source dest : Store)
    (items : List TrieItem)
    (hitems : trieItemsOf c source = some items) :
    (items.all keyLen32 = true → ∀ d, generate_bloom c source dest ≠ .panic d) ∧
      (∀ pre k v rest, items = pre ++ .ok (k, v) :: rest → pre.all okKey32 = true →
        k.length ≠ 32 → generate_bloom c source dest = .panic dest) := by
  obtain ⟨hash, hdr, hb, hh, ht⟩ := trieItemsOf_some hitems
  constructor
  · intro hall d hc
    rw [generate_bloom_items hb hh ht] at hc
    cases hl : bloomLoop items (Bloom.new ACCOUNT_BLOOM_SPACE DEFAULT_ACCOUNT_PRESET) with
    | done b => simp only [hl] at hc; exact Outcome.noConfusion hc
    | corrupt => simp only [hl] at hc; exact Outcome.noConfusion hc
    | panicked => exact bloomLoop_no_panic items _ hall hl
  · intro pre k v rest hsplit hpre hklen
    rw [generate_bloom_items hb hh ht, hsplit]
    simp only [bloomLoop_panicked_reached pre rest k v _ hpre hklen]

/-- Witness for C10: a 32-byte-keyed traversal cannot panic, and a concrete
2-byte leaf key does panic. -/
theorem implicit_key_length_precondition_witness :
    generate_bloom cOneLeaf srcHead emptyStore ≠ .panic emptyStore ∧
      generate_bloom cShortKey srcHead emptyStore = .panic emptyStore :=
  ⟨(implicit_key_length_precondition cOneLeaf srcHead emptyStore
        [Except.ok (wKeyA, [])] rfl).1 (by decide) emptyStore,
    (implicit_key_length_precondition cShortKey srcHead emptyStore
        [Except.ok (([5, 6] : Bytes), ([] : Bytes))] rfl).2
      [] [5, 6] [] [] rfl (by decide) (by decide)⟩

/-- Helper: upserting a fresh key appends the pair. -/
theorem upsert_fresh (l : List (Bytes × Bytes)) (k v : Bytes)
    (h : k ∉ l.map Prod.fst) : upsert l k v = l ++ [(k, v)] := by
  unfold upsert
  congr 1
  refine List.filter_eq_self.mpr ?_
  intro p hp
  simp only [decide_eq_true_eq]
  intro hpk
  exact h (hpk ▸ List.mem_map_of_mem Prod.fst hp)

/-- Helper: writing a transaction of fresh, pairwise-distinct keys appends
its entries to the column. -/
theorem writeEntries_append (tx : Tx) : ∀ l : List (Bytes × Bytes),
    (tx.map Prod.fst).Nodup →
    (∀ k ∈ tx.map Prod.fst, k ∉ l.map Prod.fst) →
    writeEntries l tx = l ++ tx := by
  induction tx with
  | nil => intro l _ _; simp [writeEntries]
  | cons p tx ih =>
    intro l hnd hfresh
    obtain ⟨k, v⟩ := p
    rw [List.map_cons, List.nodup_cons] at hnd
    obtain ⟨hknotin, hnd'⟩ := hnd
    have hfresh' : ∀ k' ∈ tx.map Prod.fst, k' ∉ (l ++ [(k, v)]).map Prod.fst := by
      intro k' hk'
      rw [List.map_append, List.mem_append]
      rintro (hl | hr)
      · exact hfresh k' (List.mem_cons_of_mem _ hk') hl
      · simp only [List.map_cons, List.map_nil, List.mem_singleton] at hr
        exact hknotin (hr ▸ hk')
    have hstep : writeEntries l ((k, v) :: tx) = writeEntries (upsert l k v) tx := rfl
    rw [hstep, upsert_fresh l k v (hfresh k (List.mem_cons_self _ _)), ih _ hnd' hfresh']
    simp

/-- Helper: a store write changes the target column to the written
entries. -/
theorem cols_write_same (s : Store) (c : Col) (tx : Tx) :
    (s.write c tx).cols c = writeEntries (s.cols c) tx := by
  unfold Store.write
  simp

/-- Helper: a store write leaves every other column unchanged. -/
theorem cols_write_other (s : Store) (c c' : Col) (tx : Tx) (h : c' ≠ c) :
    (s.write c tx).cols c' = s.cols c' := by
  unfold Store.write
  simp [h]

/-- Helper: applying transactions against one column leaves every other
column unchanged. -/
theorem applyTxs_cols_other (ts : List Tx) : ∀ (d : Store) (col c : Col), c ≠ col →
    (applyTxs d col ts).cols c = d.cols c := by
  induction ts with
  | nil => intro d col c _; rfl
  | cons t ts ih =>
    intro d col c h
    have hstep : applyTxs d col (t :: ts) = applyTxs (d.write col t) col ts := rfl
    rw [hstep, ih _ _ _ h, cols_write_other _ _ _ _ h]

/-- Helper: applying transactions whose joined keys are pairwise distinct
and fresh for the column appends the joined entries. -/
theorem applyTxs_cols_same (ts : List Tx) : ∀ (d : Store) (col : Col),
    (ts.flatten.map Prod.fst).Nodup →
    (∀ k ∈ ts.flatten.map Prod.fst, k ∉ (d.cols col).map Prod.fst) →
    (applyTxs d col ts).cols col = d.cols col ++ ts.flatten := by
  induction ts with
  | nil => intro d col _ _; simp [applyTxs]
  | cons t ts ih =>
    intro d col hnd hfresh
    rw [List.flatten_cons, List.map_append] at hnd
    obtain ⟨hndt, hndts, hdisj⟩ := List.nodup_append.mp hnd
    have hfresh_t : ∀ k ∈ t.map Prod.fst, k ∉ (d.cols col).map Prod.fst := by
      intro k hk
      exact hfresh k (by rw [List.flatten_cons, List.map_append, List.mem_append]; exact Or.inl hk)
    have hwt : (d.write col t).cols col = d.cols col ++ t := by
      rw [cols_write_same, writeEntries_append t _ hndt hfresh_t]
    have hfresh' : ∀ k ∈ ts.flatten.map Prod.fst, k ∉ ((d.write col t).cols col).map Prod.fst := by
      intro k hk
      rw [hwt, List.map_append, List.mem_append]
      rintro (hl | hr)
      · exact hfresh k
          (by rw [List.flatten_cons, List.map_append, List.mem_append]; exact Or.inr hk) hl
      · exact hdisj hr hk
    have hstep : applyTxs d col (t :: ts) = applyTxs (d.write col t) col ts := rfl
    rw [hstep, ih _ _ hndts hfresh', hwt, List.flatten_cons, List.append_assoc]

/-- Helper: structural description of the copy loop — it issues some list
of write transactions against the batch's column, carries the batch
fields through, and splits the processed entries into the flushed
transactions followed by the remaining buffer. -/
theorem copyLoop_spec (entries : List (Bytes × Bytes)) :
    ∀ (b : Batch) (d : Store) (txs : List Tx),
    ∃ (newTxs : List Tx) (rem : List (Bytes × Bytes)),
      copyLoop entries b d txs
        = (⟨rem, b.batch_size, b.column⟩, applyTxs d b.column newTxs, txs ++ newTxs) ∧
      b.inner ++ entries = newTxs.flatten ++ rem := by
  induction entries with
  | nil =>
    intro b d txs
    refine ⟨[], b.inner, ?_, by simp⟩
    show (b, d, txs) = _
    rw [List.append_nil]
    rfl
  | cons e rest ih =>
    intro b d txs
    obtain ⟨k, v⟩ := e
    by_cases hflush : (b.inner ++ [(k, v)]).length = b.batch_size
    · have hred : copyLoop ((k, v) :: rest) b d txs
          = copyLoop rest ⟨[], b.batch_size, b.column⟩
              (d.write b.column (b.inner ++ [(k, v)])) (txs ++ [b.inner ++ [(k, v)]]) := by
        show copyLoop rest (b.insert k v d).1 (b.insert k v d).2.1
            (txs ++ (b.insert k v d).2.2) = _
        unfold Batch.insert
        rw [if_pos hflush]
      obtain ⟨newTxs', rem, hspec, hsplit⟩ :=
        ih ⟨[], b.batch_size, b.column⟩ (d.write b.column (b.inner ++ [(k, v)]))
          (txs ++ [b.inner ++ [(k, v)]])
      refine ⟨(b.inner ++ [(k, v)]) :: newTxs', rem, ?_, ?_⟩
      · rw [hred, hspec]
        simp [applyTxs, List.append_assoc]
      · simp only [List.nil_append] at hsplit
        rw [List.flatten_cons, hsplit]
        simp
    · have hred : copyLoop ((k, v) :: rest) b d txs
          = copyLoop rest ⟨b.inner ++ [(k, v)], b.batch_size, b.column⟩ d (txs ++ []) := by
        show copyLoop rest (b.insert k v d).1 (b.insert k v d).2.1
            (txs ++ (b.insert k v d).2.2) = _
        unfold Batch.insert
        rw [if_neg hflush]
      obtain ⟨newTxs', rem, hspec, hsplit⟩ :=
        ih ⟨b.inner ++ [(k, v)], b.batch_size, b.column⟩ d (txs ++ [])
      refine ⟨newTxs', rem, ?_, ?_⟩
      · rw [hred, hspec, List.append_nil]
      · have hsplit' : (b.inner ++ [(k, v)]) ++ rest = newTxs'.flatten ++ rem := hsplit
        rw [show b.inner ++ (k, v) :: rest = (b.inner ++ [(k, v)]) ++ rest by simp]
        exact hsplit'


/-- Helper: transaction count and remaining-buffer length of the copy loop:
starting below the threshold, the loop flushes once per full threshold of
processed entries and keeps the rest buffered. -/
theorem copyLoop_count (entries : List (Bytes × Bytes)) :
    ∀ (b : Batch) (d : Store) (txs : List Tx),
    0 < b.batch_size → b.inner.length < b.batch_size →
    (copyLoop entries b d txs).2.2.length
        = txs.length + (b.inner.length + entries.length) / b.batch_size ∧
      (copyLoop entries b d txs).1.inner.length
        = (b.inner.length + entries.length) % b.batch_size := by
  induction entries with
  | nil =>
    intro b d txs hT hlt
    constructor
    · show txs.length
          = txs.length + (b.inner.length + ([] : List (Bytes × Bytes)).length) / b.batch_size
      rw [List.length_nil, Nat.add_zero, Nat.div_eq_of_lt hlt, Nat.add_zero]
    · show b.inner.length
          = (b.inner.length + ([] : List (Bytes × Bytes)).length) % b.batch_size
      rw [List.length_nil, Nat.add_zero, Nat.mod_eq_of_lt hlt]
  | cons e rest ih =>
    intro b d txs hT hlt
    obtain ⟨k, v⟩ := e
    have hlen : (b.inner ++ [(k, v)]).length = b.inner.length + 1 := by simp
    have hcons : ((k, v) :: rest).length = rest.length + 1 := rfl
    by_cases hflush : (b.inner ++ [(k, v)]).length = b.batch_size
    · have hred : copyLoop ((k, v) :: rest) b d txs
          = copyLoop rest ⟨[], b.batch_size, b.column⟩
              (d.write b.column (b.inner ++ [(k, v)])) (txs ++ [b.inner ++ [(k, v)]]) := by
        show copyLoop rest (b.insert k v d).1 (b.insert k v d).2.1
            (txs ++ (b.insert k v d).2.2) = _
        unfold Batch.insert
        rw [if_pos hflush]
      have hT1 : b.inner.length + 1 = b.batch_size := by rw [← hlen]; exact hflush
      obtain ⟨hc, hr⟩ :=
        (show (copyLoop rest (⟨[], b.batch_size, b.column⟩ : Batch)
              (d.write b.column (b.inner ++ [(k, v)]))
              (txs ++ [b.inner ++ [(k, v)]])).2.2.length
            = (txs ++ [b.inner ++ [(k, v)]]).length + (0 + rest.length) / b.batch_size ∧
          (copyLoop rest (⟨[], b.batch_size, b.column⟩ : Batch)
              (d.write b.column (b.inner ++ [(k, v)]))
              (txs ++ [b.inner ++ [(k, v)]])).1.inner.length
            = (0 + rest.length) % b.batch_size
          from ih ⟨[], b.batch_size, b.column⟩
            (d.write b.column (b.inner ++ [(k, v)])) (txs ++ [b.inner ++ [(k, v)]]) hT hT)
      rw [hred]
      constructor
      · rw [hc, List.length_append]
        rw [show (0 + rest.length) = rest.length from Nat.zero_add _]
        rw [show b.inner.length + ((k, v) :: rest).length = rest.length + b.batch_size from by
          rw [hcons]; omega]
        rw [Nat.add_div_right _ hT]
        rw [show ([b.inner ++ [(k, v)]] : List Tx).length = 1 from rfl]
        omega
      · rw [hr]
        rw [show (0 + rest.length) = rest.length from Nat.zero_add _]
        rw [show b.inner.length + ((k, v) :: rest).length = rest.length + b.batch_size from by
          rw [hcons]; omega]
        rw [Nat.add_mod_right]
    · have hred : copyLoop ((k, v) :: rest) b d txs
          = copyLoop rest ⟨b.inner ++ [(k, v)], b.batch_size, b.column⟩ d (txs ++ []) := by
        show copyLoop rest (b.insert k v d).1 (b.insert k v d).2.1
            (txs ++ (b.insert k v d).2.2) = _
        unfold Batch.insert
        rw [if_neg hflush]
      have hne : b.inner.length + 1 ≠ b.batch_size := by rw [← hlen]; exact hflush
      have hlt' : (b.inner ++ [(k, v)]).length < b.batch_size := by rw [hlen]; omega
      obtain ⟨hc, hr⟩ :=
        (show (copyLoop rest (⟨b.inner ++ [(k, v)], b.batch_size, b.column⟩ : Batch)
              d (txs ++ [])).2.2.length
            = (txs ++ []).length
              + ((b.inner ++ [(k, v)]).length + rest.length) / b.batch_size ∧
          (copyLoop rest (⟨b.inner ++ [(k, v)], b.batch_size, b.column⟩ : Batch)
              d (txs ++ [])).1.inner.length
            = ((b.inner ++ [(k, v)]).length + rest.length) % b.batch_size
          from ih ⟨b.inner ++ [(k, v)], b.batch_size, b.column⟩ d (txs ++ []) hT hlt')
      rw [hred]
      constructor
      · rw [hc, List.append_nil, hlen]
        rw [show b.inner.length + 1 + rest.length
            = b.inner.length + ((k, v) :: rest).length from by rw [hcons]; omega]
      · rw [hr, hlen]
        rw [show b.inner.length + 1 + rest.length
            = b.inner.length + ((k, v) :: rest).length from by rw [hcons]; omega]

/-- Helper: the flush count plus a final partial flush is the ceiling
division of the entry count by the threshold. -/
theorem flushes_eq_ceil (N T : Nat) (h : 0 < T) :
    N / T + (if N % T = 0 then 0 else 1) = (N + T - 1) / T := by
  by_cases h0 : N % T = 0
  · rw [if_pos h0, Nat.add_zero]
    have hdvd : T ∣ N := Nat.dvd_of_mod_eq_zero h0
    have hdm : N / T * T = N := Nat.div_mul_cancel hdvd
    have e : N + T - 1 = T * (N / T) + (T - 1) := by
      rw [Nat.mul_comm]
      generalize N / T * T = X at hdm ⊢
      omega
    rw [e, Nat.mul_add_div h, Nat.div_eq_of_lt (show T - 1 < T by omega), Nat.add_zero]
  · rw [if_neg h0]
    have hdm : T * (N / T) + N % T = N := Nat.div_add_mod N T
    have hrT : N % T < T := Nat.mod_lt _ h
    have e : N + T - 1 = T * (N / T + 1) + (N % T - 1) := by
      rw [Nat.mul_add, Nat.mul_one]
      generalize T * (N / T) = X at hdm ⊢
      omega
    rw [e, Nat.mul_add_div h,
      Nat.div_eq_of_lt (show N % T - 1 < T by omega), Nat.add_zero]

/-- Helper: content of the copied column — with pairwise-distinct source
keys and an initially empty destination column, the committed destination
column equals the source column, and other columns are untouched. -/
theorem copyColumn_content (config : Config) (source dest : Store) (col : Col)
    (hnd : ((source.iter col).map Prod.fst).Nodup)
    (hempty : dest.cols col = []) :
    (copyColumn config source dest col).1.cols col = source.iter col ∧
      ∀ c, c ≠ col → (copyColumn config source dest col).1.cols c = dest.cols c := by
  obtain ⟨newTxs, rem, hspec, hsplit⟩ :=
    copyLoop_spec (source.iter col) (Batch.new config col) dest []
  have hsplit' : source.iter col = newTxs.flatten ++ rem := hsplit
  have hnd' : ((newTxs.flatten ++ rem).map Prod.fst).Nodup := by
    rw [← hsplit']; exact hnd
  rw [List.map_append] at hnd'
  obtain ⟨hndf, hndr, hdisj⟩ := List.nodup_append.mp hnd'
  have hfreshf : ∀ k ∈ (newTxs.flatten).map Prod.fst, k ∉ (dest.cols col).map Prod.fst := by
    intro k _
    rw [hempty]
    simp
  have happ : (applyTxs dest col newTxs).cols col = newTxs.flatten := by
    rw [applyTxs_cols_same newTxs dest col hndf hfreshf, hempty, List.nil_append]
  have hmain : ∀ c, (copyColumn config source dest col).1.cols c
      = (Batch.commit ⟨rem, config.batch_size, col⟩ (applyTxs dest col newTxs)).2.1.cols c := by
    intro c
    unfold copyColumn
    rw [hspec]
    rfl
  by_cases hrem : rem = []
  · have hcommit : Batch.commit ⟨rem, config.batch_size, col⟩ (applyTxs dest col newTxs)
        = (⟨rem, config.batch_size, col⟩, applyTxs dest col newTxs, []) := by
      unfold Batch.commit
      rw [if_pos hrem]
    constructor
    · have goal1 : (applyTxs dest col newTxs).cols col = source.iter col := by
        rw [happ, hsplit', hrem, List.append_nil]
      rw [hmain col, hcommit]
      exact goal1
    · intro c hc
      rw [hmain c, hcommit]
      exact applyTxs_cols_other newTxs dest col c hc
  · have hcommit : Batch.commit ⟨rem, config.batch_size, col⟩ (applyTxs dest col newTxs)
        = (⟨[], config.batch_size, col⟩, (applyTxs dest col newTxs).write col rem, [rem]) := by
      unfold Batch.commit
      rw [if_neg hrem]
    have hfreshr : ∀ k ∈ rem.map Prod.fst,
        k ∉ ((applyTxs dest col newTxs).cols col).map Prod.fst := by
      intro k hk
      rw [happ]
      intro hmem
      exact hdisj hmem hk
    constructor
    · have goal1 : ((applyTxs dest col newTxs).write col rem).cols col = source.iter col := by
        rw [cols_write_same, writeEntries_append rem _ hndr hfreshr, happ, hsplit']
      rw [hmain col, hcommit]
      exact goal1
    · intro c hc
      have goal2 : ((applyTxs dest col newTxs).write col rem).cols c = dest.cols c := by
        rw [cols_write_other _ _ _ _ hc]
        exact applyTxs_cols_other newTxs dest col c hc
      rw [hmain c, hcommit]
      exact goal2

/-- Helper: the column copy touches only the migrated column,
unconditionally. -/
theorem copyColumn_cols_other (config : Config) (source dest : Store) (col c : Col)
    (h : c ≠ col) :
    (copyColumn config source dest col).1.cols c = dest.cols c := by
  obtain ⟨newTxs, rem, hspec, -⟩ :=
    copyLoop_spec (source.iter col) (Batch.new config col) dest []
  have hmain : (copyColumn config source dest col).1.cols c
      = (Batch.commit ⟨rem, config.batch_size, col⟩ (applyTxs dest col newTxs)).2.1.cols c := by
    unfold copyColumn
    rw [hspec]
    rfl
  by_cases hrem : rem = []
  · have hcommit : Batch.commit ⟨rem, config.batch_size, col⟩ (applyTxs dest col newTxs)
        = (⟨rem, config.batch_size, col⟩, applyTxs dest col newTxs, []) := by
      unfold Batch.commit
      rw [if_pos hrem]
    rw [hmain, hcommit]
    exact applyTxs_cols_other newTxs dest col c h
  · have hcommit : Batch.commit ⟨rem, config.batch_size, col⟩ (applyTxs dest col newTxs)
        = (⟨[], config.batch_size, col⟩, (applyTxs dest col newTxs).write col rem, [rem]) := by
      unfold Batch.commit
      rw [if_neg hrem]
    have goal2 : ((applyTxs dest col newTxs).write col rem).cols c = dest.cols c := by
      rw [cols_write_other _ _ _ _ h]
      exact applyTxs_cols_other newTxs dest col c h
    rw [hmain, hcommit]
    exact goal2

/-- Helper: a successful `generate_bloom` changes at most the account-bloom
column of the destination. -/
theorem generate_bloom_cols (c : Collab) (source dest d' : Store)
    (h : generate_bloom c source dest = .ok d') :
    ∀ cc, cc ≠ COL_ACCOUNT_BLOOM → d'.cols cc = dest.cols cc := by
  intro cc hcc
  unfold generate_bloom at h
  cases hb : source.get COL_EXTRA bestKey with
  | none =>
    simp only [hb] at h
    injection h with e
    rw [← e]
  | some hash =>
    simp only [hb] at h
    cases hh : source.get COL_HEADERS hash with
    | none =>
      simp only [hh] at h
      injection h with e
      rw [← e]
    | some hdr =>
      simp only [hh] at h
      cases ht : c.trie (source.iter COL_STATE) (c.state_root hdr) with
      | openFail => simp only [ht] at h; exact Outcome.noConfusion h
      | iterFail => simp only [ht] at h; exact Outcome.noConfusion h
      | items items =>
        simp only [ht] at h
        cases hl : bloomLoop items (Bloom.new ACCOUNT_BLOOM_SPACE DEFAULT_ACCOUNT_PRESET) with
        | corrupt => simp only [hl] at h; exact Outcome.noConfusion h
        | panicked => simp only [hl] at h; exact Outcome.noConfusion h
        | done b =>
          simp only [hl] at h
          injection h with e
          rw [← e]
          unfold commitBloom
          exact cols_write_other _ _ _ _ hcc

/-- C1: Copy fidelity — for the migrated column, after a successful
`ToV10::migrate` the destination column equals the source column as a
list: every (key, value) pair of the source column is present
byte-identically, and no pair that was not in the source column is
present.  The hypotheses reflect the migration setting: a store column
has pairwise-distinct keys, and the destination is a freshly created
store whose column starts empty. -/
theorem copy_fidelity (c : Collab) (config : Config) (source dest : Store) (col : Col)
    (d' : Store)
    (hnd : ((source.iter col).map Prod.fst).Nodup)
    (hempty : dest.cols col = [])
    (hok : ToV10.migrate c config source dest col = .ok d') :
    d'.cols col = source.iter col := by
  obtain ⟨hcol, -⟩ := copyColumn_content config source dest col hnd hempty
  unfold ToV10.migrate at hok
  by_cases hstate : col = COL_STATE
  · rw [if_pos hstate] at hok
    have hok' : generate_bloom c source (copyColumn config source dest col).1 = .ok d' := hok
    have hbloom := generate_bloom_cols c source _ d' hok' col (by rw [hstate]; decide)
    rw [hbloom, hcol]
  · rw [if_neg hstate] at hok
    have hok' : Outcome.ok (copyColumn config source dest col).1 = .ok d' := hok
    injection hok' with e
    rw [← e, hcol]

/-- Witness for C1: migrating concrete column 2 of a five-entry source into
an empty destination reproduces the source column exactly. -/
theorem copy_fidelity_witness :
    ((copyColumn wConfig srcCopy emptyStore (some 2)).1).cols (some 2)
      = srcCopy.iter (some 2) :=
  copy_fidelity cNoTrie wConfig srcCopy emptyStore (some 2)
    (copyColumn wConfig srcCopy emptyStore (some 2)).1 (by decide) rfl rfl

/-- C8: State-column trigger — `ToV10::migrate` invokes `generate_bloom`
exactly when the migrated column is the state column; when it does, it
runs it against the destination as left by the committed column copy, and
its outcome (including any failure) becomes the outcome of the whole
call; for a non-state column the call returns exactly the committed copy
and, for a column other than the account-bloom column itself, the
account-bloom column of the destination is untouched (no bloom journal is
written). -/
theorem state_column_trigger (c : Collab) (config : Config) (source dest : Store)
    (col : Col) :
    (col = COL_STATE →
      ToV10.migrate c config source dest col
        = generate_bloom c source (copyColumn config source dest col).1) ∧
      (col ≠ COL_STATE →
        ToV10.migrate c config source dest col
          = .ok (copyColumn config source dest col).1) ∧
      (col ≠ COL_STATE → col ≠ COL_ACCOUNT_BLOOM →
        ∀ d', ToV10.migrate c config source dest col = .ok d' →
          d'.cols COL_ACCOUNT_BLOOM = dest.cols COL_ACCOUNT_BLOOM) := by
  refine ⟨?_, ?_, ?_⟩
  · intro h
    unfold ToV10.migrate
    rw [if_pos h]
  · intro h
    unfold ToV10.migrate
    rw [if_neg h]
  · intro h hb d' hok
    unfold ToV10.migrate at hok
    rw [if_neg h] at hok
    have hok' : Outcome.ok (copyColumn config source dest col).1 = .ok d' := hok
    injection hok' with e
    rw [← e]
    exact copyColumn_cols_other config source dest col COL_ACCOUNT_BLOOM (Ne.symm hb)

/-- Witness for C8 at the concrete state column. -/
theorem state_column_trigger_witness :
    ToV10.migrate cNoTrie wConfig srcCopy emptyStore COL_STATE
      = generate_bloom cNoTrie srcCopy (copyColumn wConfig srcCopy emptyStore COL_STATE).1 :=
  (state_column_trigger cNoTrie wConfig srcCopy emptyStore COL_STATE).1 rfl

/-- C9: Threshold flush correctness — with N source entries, a flush
threshold T with 0 < T < N, pairwise-distinct source keys and a fresh
destination column, the batch accumulator of `ToV10::migrate`'s copy
issues exactly ⌈N/T⌉ = (N + T - 1) / T write transactions, and after the
final commit all N entries are present in the destination column exactly
once (the destination column equals the source column). -/
theorem threshold_flush_correct (config : Config) (source dest : Store) (col : Col)
    (N T : Nat)
    (hT : config.batch_size = T)
    (hN : (source.iter col).length = N)
    (h0 : 0 < T) (hTN : T < N)
    (hnd : ((source.iter col).map Prod.fst).Nodup)
    (hempty : dest.cols col = []) :
    (copyColumn config source dest col).2.length = (N + T - 1) / T ∧
      (copyColumn config source dest col).1.cols col = source.iter col := by
  refine ⟨?_, (copyColumn_content config source dest col hnd hempty).1⟩
  subst hT
  subst hN
  obtain ⟨hc, hr⟩ :=
    (show (copyLoop (source.iter col) (Batch.new config col) dest []).2.2.length
        = ([] : List Tx).length + (0 + (source.iter col).length) / config.batch_size ∧
      (copyLoop (source.iter col) (Batch.new config col) dest []).1.inner.length
        = (0 + (source.iter col).length) % config.batch_size
      from copyLoop_count (source.iter col) (Batch.new config col) dest [] h0 h0)
  obtain ⟨newTxs, rem, hspec, -⟩ :=
    copyLoop_spec (source.iter col) (Batch.new config col) dest []
  rw [hspec] at hc hr
  have hcn : ([] ++ newTxs : List Tx).length
      = ([] : List Tx).length + (0 + (source.iter col).length) / config.batch_size := hc
  have hrn : rem.length = (0 + (source.iter col).length) % config.batch_size := hr
  have hcn' : newTxs.length = (source.iter col).length / config.batch_size := by
    simpa using hcn
  have hrn' : rem.length = (source.iter col).length % config.batch_size := by
    simpa using hrn
  have hmain : (copyColumn config source dest col).2
      = ([] ++ newTxs)
        ++ (Batch.commit ⟨rem, config.batch_size, col⟩ (applyTxs dest col newTxs)).2.2 := by
    unfold copyColumn
    rw [hspec]
    rfl
  rw [hmain]
  by_cases hrem : rem = []
  · have hcommit : Batch.commit ⟨rem, config.batch_size, col⟩ (applyTxs dest col newTxs)
        = (⟨rem, config.batch_size, col⟩, applyTxs dest col newTxs, []) := by
      unfold Batch.commit
      rw [if_pos hrem]
    have hmod : (source.iter col).length % config.batch_size = 0 := by
      rw [← hrn', hrem]
      rfl
    rw [hcommit, List.append_nil, List.nil_append, hcn',
      ← flushes_eq_ceil _ _ h0, hmod, if_pos rfl, Nat.add_zero]
  · have hcommit : Batch.commit ⟨rem, config.batch_size, col⟩ (applyTxs dest col newTxs)
        = (⟨[], config.batch_size, col⟩, (applyTxs dest col newTxs).write col rem, [rem]) := by
      unfold Batch.commit
      rw [if_neg hrem]
    have hmod : (source.iter col).length % config.batch_size ≠ 0 := by
      rw [← hrn']
      intro hz
      exact hrem (List.length_eq_zero.mp hz)
    rw [hcommit, List.nil_append,
      show (newTxs ++ [rem]).length = newTxs.length + 1 from by simp, hcn',
      ← flushes_eq_ceil _ _ h0, if_neg hmod]

/-- Witness for C9: five entries with threshold 2 issue ⌈5/2⌉ = 3 write
transactions and reproduce the column. -/
theorem threshold_flush_correct_witness :
    (copyColumn wConfig srcCopy emptyStore (some 2)).2.length = (5 + 2 - 1) / 2 ∧
      (copyColumn wConfig srcCopy emptyStore (some 2)).1.cols (some 2)
        = srcCopy.iter (some 2) :=
  threshold_flush_correct wConfig srcCopy emptyStore (some 2) 5 2 rfl rfl
    (by decide) (by decide) (by decide) rfl

end ParityV10
